import Mathlib

/-!
Shallow embedding of the kikaika scheduling core
(`src/61_kikaikaSchedule/master_kikaika.py` and
`src/61_kikaikaSchedule/child_requirements.py`).

Conventions of the embedding:
* pandas/python floats are modelled as exact rationals `ℚ`;
* calendar dates are modelled as integers `ℤ` (days since an epoch), so that
  date subtraction (`target - before` in `nearest_workday`) is integer
  subtraction of day counts;
* a nullable cell (`NaN` / `None`) is an `Option`;
* python list indexing, which raises `IndexError` out of range, is modelled
  with `List.get?` returning `none`;
* a pandas column of key/value rows is a `List` of structures, `groupby(k).sum`
  becomes "sum of the values of the rows whose key fields match", and a
  left-merge with `fillna(0)` becomes a lookup defaulting to `0`.
-/

namespace Kikaika

/-! ### Shortage detector: `compute_shortage` (master_kikaika.py lines 93-101)

The python loop walks `zip(date_cols, date_colnames)` keeping a running
cumulative demand `cum`; it records the first date where
`inv_total - cum <= 0` and finally returns
`(shortage_date, inv_total - cum)` with `cum` the full-horizon total. -/

/-- One iteration of the loop body of `compute_shortage`: add the day's
quantity to the running cumulative total, and record the day as shortage date
if none is recorded yet and `inv_total - cum <= 0`. -/
def shortage_step (inv_total : ℚ) (acc : ℚ × Option ℤ) (x : ℤ × ℚ) : ℚ × Option ℤ :=
  let cum := acc.1 + x.2
  (cum, if acc.2 = none ∧ inv_total - cum ≤ 0 then some x.1 else acc.2)

/-- Function `compute_shortage` from master_kikaika.py: returns the pair
`(shortage_date, shortage_qty)` where `shortage_qty = inv_total - cum` uses the
cumulative demand over the whole horizon. -/
def compute_shortage (inv_total : ℚ) (demand : List (ℤ × ℚ)) : Option ℤ × ℚ :=
  let r := demand.foldl (shortage_step inv_total) (0, none)
  (r.2, inv_total - r.1)

/-- Specification-side description of the shortage date: the first day whose
cumulative demand (starting from `cum`) drives `inv_total - cum` non-positive,
`none` if no such day exists. -/
def first_shortfall (inv_total : ℚ) (cum : ℚ) : List (ℤ × ℚ) → Option ℤ
  | [] => none
  | x :: rest =>
    if inv_total - (cum + x.2) ≤ 0 then some x.1
    else first_shortfall inv_total (cum + x.2) rest

lemma shortage_foldl_fst (inv_total : ℚ) :
    ∀ (demand : List (ℤ × ℚ)) (cum : ℚ) (sd : Option ℤ),
      (demand.foldl (shortage_step inv_total) (cum, sd)).1
        = cum + (demand.map (fun x => x.2)).sum := by
  intro demand
  induction demand with
  | nil => intro cum sd; simp
  | cons x rest ih =>
      intro cum sd
      simp only [List.foldl_cons, List.map_cons, List.sum_cons, shortage_step]
      rw [ih]
      ring

lemma shortage_foldl_some (inv_total : ℚ) :
    ∀ (demand : List (ℤ × ℚ)) (cum : ℚ) (d : ℤ),
      (demand.foldl (shortage_step inv_total) (cum, some d)).2 = some d := by
  intro demand
  induction demand with
  | nil => intro cum d; simp
  | cons x rest ih =>
      intro cum d
      rw [List.foldl_cons]
      have hstep : shortage_step inv_total (cum, some d) x = (cum + x.2, some d) := by
        simp [shortage_step]
      rw [hstep]
      exact ih _ _

lemma shortage_foldl_none (inv_total : ℚ) :
    ∀ (demand : List (ℤ × ℚ)) (cum : ℚ),
      (demand.foldl (shortage_step inv_total) (cum, none)).2
        = first_shortfall inv_total cum demand := by
  intro demand
  induction demand with
  | nil => intro cum; simp [first_shortfall]
  | cons x rest ih =>
      intro cum
      rw [List.foldl_cons]
      by_cases h : inv_total - (cum + x.2) ≤ 0
      · have hstep : shortage_step inv_total (cum, none) x = (cum + x.2, some x.1) := by
          simp [shortage_step, h]
        rw [hstep, shortage_foldl_some]
        simp only [first_shortfall]
        rw [if_pos h]
      · have hstep : shortage_step inv_total (cum, none) x = (cum + x.2, none) := by
          simp [shortage_step, h]
        rw [hstep, ih]
        simp only [first_shortfall]
        rw [if_neg h]

/-! ### Line-number canonicalization: `to_int_str` (master_kikaika.py lines 103-113)

`pd.to_numeric(s, errors="coerce").fillna(-1).astype(int).astype(str)`
applied cell-wise.  A cell can hold a python int, a float (modelled as an
exact rational), a string, or a null.  `astype(int)` on a float truncates
toward zero; `astype(str)` renders the integer in decimal. -/

/-- A raw cell value as it can appear in the order-line-number columns. -/
inductive CellVal : Type
  | intv (n : ℤ)
  | floatv (q : ℚ)
  | strv (s : String)
  | nullv
deriving DecidableEq

/-- Value of a non-empty digit string, most significant digit first. -/
def digitsVal (cs : List Char) : ℕ :=
  cs.foldl (fun acc c => 10 * acc + (c.toNat - 48)) 0

/-- Parse an unsigned numeric literal: digits with an optional single decimal
point (`"10"`, `"10."`, `".5"`, `"10.5"`).  Returns `none` on anything else.
Mirrors what python float parsing accepts for the values this program meets
(scientific notation is not modelled). -/
def parseUnsigned (cs : List Char) : Option ℚ :=
  let ip := cs.takeWhile (fun c => c.isDigit)
  let rest := cs.dropWhile (fun c => c.isDigit)
  match rest with
  | [] => if ip.isEmpty then none else some (digitsVal ip)
  | '.' :: fp =>
      if fp.all (fun c => c.isDigit) && !(ip.isEmpty && fp.isEmpty) then
        some ((digitsVal ip : ℚ) + (digitsVal fp : ℚ) / (10 : ℚ) ^ fp.length)
      else none
  | _ => none

/-- Strip leading and trailing spaces, as python numeric parsing does. -/
def trimSpaces (cs : List Char) : List Char :=
  ((cs.dropWhile (fun c => c = ' ')).reverse.dropWhile (fun c => c = ' ')).reverse

/-- Numeric parse of a string cell: optional sign around an unsigned literal,
whitespace-tolerant; `none` when unparsable. -/
def parseNum (s : String) : Option ℚ :=
  match trimSpaces s.toList with
  | '-' :: rest => (parseUnsigned rest).map (fun q => -q)
  | '+' :: rest => parseUnsigned rest
  | cs => parseUnsigned cs

/-- Cellwise `pd.to_numeric(x, errors="coerce")`: numbers pass through,
strings are parsed, nulls and unparsable strings coerce to `NaN` (`none`). -/
def toNumeric : CellVal → Option ℚ
  | CellVal.intv n => some (n : ℚ)
  | CellVal.floatv q => some q
  | CellVal.strv s => parseNum s
  | CellVal.nullv => none

/-- Effect of `astype(int)` on a float value: truncation toward zero. -/
def truncToInt (q : ℚ) : ℤ :=
  if 0 ≤ q then ⌊q⌋ else ⌈q⌉

/-- Function `to_int_str` from master_kikaika.py applied to one cell:
coerce to numeric, fill the unparsable with `-1`, truncate to int,
render in decimal. -/
def to_int_str (v : CellVal) : String :=
  toString (truncToInt ((toNumeric v).getD (-1)))

/-! ### Calendar service (master_kikaika.py lines 69-91)

`workdays` is the ordered list of MPS calendar dates (`load_mps_calendar`
fetches them with `ORDER BY`).  `bisect.bisect_left` and
`np.searchsorted(..., side="left")` on an ascending list both return the
leftmost insertion point, i.e. the length of the prefix of elements
strictly below the probe. -/

/-- Leftmost insertion point of `t` in the ascending list `l`
(`bisect.bisect_left` / `np.searchsorted(side="left")`). -/
def bisect_left (l : List ℤ) (t : ℤ) : ℕ :=
  (l.takeWhile (fun w => decide (w < t))).length

/-- Function `nearest_workday` from master_kikaika.py: empty calendar returns the
target unchanged; a target at or before the first (at or after the last)
workday snaps to the first (last); otherwise compare the two workdays
adjacent to the insertion point, preferring `before` on ties. -/
def nearest_workday (workdays : List ℤ) (target : ℤ) : ℤ :=
  match workdays with
  | [] => target
  | w0 :: rest =>
    let l := w0 :: rest
    let wlast := l.getLast (List.cons_ne_nil w0 rest)
    if target ≤ w0 then w0
    else if wlast ≤ target then wlast
    else
      let i := bisect_left l target
      let before := l.getD (i - 1) 0
      let after := l.getD i 0
      if target - before ≤ after - target then before else after

/-- Function `delivery_date_from_shortage` from master_kikaika.py: snap the shortage
date to the nearest workday, locate it with `searchsorted`, step back
`back_days` workdays clamping the index at 0 (`max(0, idx - back_days)` on
python ints is truncated subtraction on `ℕ`), and index into the list.
`workdays[due_idx]` raises `IndexError` on an empty list, modelled by
`none`. -/
def delivery_date_from_shortage (workdays : List ℤ) (shortage : ℤ)
    (back_days : ℕ) : Option ℤ :=
  let s := nearest_workday workdays shortage
  let idx := bisect_left workdays s
  let due := idx - back_days
  workdays[due]?

/-! ### Inventory sources and the netting base used by `main`
(master_kikaika.py lines 161-228 and 421-470)

`load_stock_stoc` groups BAAN stock rows by `(ITEM_N, CWAR)` and sums
`STOC`; the part row keeps the sum for its own `(part, CWAR)` pair, 0 when
absent (`fillna(0)`).  `load_theory_and_external` groups the two ASS tables
by normalized item and sums.  `main` line 439 computes
`在庫合計 = 棚理論 + 外部`, but line 469 nets the daily demand against
`float(r["STOC"])` alone. -/

/-- One row of BAAN stock table `TTDINV001002` (item already normalized). -/
structure InvRow : Type where
  item : String
  cwar : String
  stoc : ℚ
deriving DecidableEq

/-- STOC per part after the grouped sum, `(ITEM, CWAR)` exact-match join and
`fillna(0)`: sum of the stock of the rows carrying this part and warehouse
(0 when there are none). -/
def stocOf (inv : List InvRow) (m cwar : String) : ℚ :=
  ((inv.filter (fun r => r.item == m && r.cwar == cwar)).map (fun r => r.stoc)).sum

/-- Grouped sum of one single-key quantity source (`tbl_ItemTheory` or
`外部倉庫在庫`) for a part, 0 when the part is absent
(`groupby(...).sum()` then left-merge and `fillna(0)`). -/
def sumOf (tbl : List (String × ℚ)) (m : String) : ℚ :=
  ((tbl.filter (fun r => r.1 == m)).map (fun r => r.2)).sum

/-- Column `在庫合計` of main line 439: theoretical shelf count plus
external-warehouse stock (on-hand STOC is not part of it). -/
def zaiko_goukei (th ext : List (String × ℚ)) (m : String) : ℚ :=
  sumOf th m + sumOf ext m

/-- The shortage computation of main lines 468-470 for one part row:
`inv_total = float(r["STOC"])`, netted through `compute_shortage`.  The
theoretical and external tables are carried on the row but do not enter
the netting base. -/
def mainShortage (inv : List InvRow) (th ext : List (String × ℚ))
    (demand : List (ℤ × ℚ)) (m cwar : String) : Option ℤ × ℚ :=
  compute_shortage (stocOf inv m cwar) demand

/-- Modelled from the spec: the Inventory Aggregator contract
`totalAvailable(part) = onHand(part) + theoretical(part) + external(part)`,
each source contributing 0 when the part is absent.  Stated only to compare
against the netting base the code actually uses. -/
def totalAvailableSpec (inv : List InvRow) (th ext : List (String × ℚ))
    (m cwar : String) : ℚ :=
  stocOf inv m cwar + sumOf th m + sumOf ext m

/-! ### Open-order reconciler: `load_paintable`
(master_kikaika.py lines 240-269 and 271-381)

`mfg_orders` rows carry `PDNO` (numeric-coerced, nullable), the
canonicalized operation key `OPRO_K = to_int_str(OPRO)`, the normalized
part `MITM_N` and `注残 = QRDR.fillna(0) - QDLV.fillna(0)`.  Purchase lines
(`TTDPUR041002`) carry `(PDNO, OPNO_K, PONO, ORNO, OQUA)` with
`OQUA` numeric-coerced and `fillna(0)`; receipts (`TTDPUR045002`) carry
`(PDNO, PONO, ORNO, DQUA)` likewise.  Receipts are pre-summed per
`(PDNO, PONO, ORNO)` before joining; the joined frame fills missing
`OQUA`/`DQUA_SUM` with 0; `着手可 = clip(A - (B - C), lower=0)` per part.
pandas merges match `NA` keys with `NA` keys, hence `Option ℤ` equality on
`PDNO`. -/

/-- One open manufacturing-order line of `TTISFC001002` after
`load_mfg_open_orders`. -/
structure MfgRow : Type where
  pdno : Option ℤ
  oproK : String
  mitm : String
  qrdr : Option ℚ
  qdlv : Option ℚ
deriving DecidableEq

/-- Backlog `注残` of one order line: `QRDR.fillna(0) - QDLV.fillna(0)`, not
clamped. -/
def zanOf (b : MfgRow) : ℚ :=
  b.qrdr.getD 0 - b.qdlv.getD 0

/-- One purchase line of `TTDPUR041002` after key/type cleanup
(`OQUA` already `fillna(0)`). -/
structure P41Row : Type where
  pdno : Option ℤ
  opnoK : String
  pono : String
  orno : String
  oqua : ℚ
deriving DecidableEq

/-- One receipt line of `TTDPUR045002` after cleanup
(`DQUA` already `fillna(0)`). -/
structure P45Row : Type where
  pdno : Option ℤ
  pono : String
  orno : String
  dqua : ℚ
deriving DecidableEq

/-- The join condition of the `base.merge(p041, left_on=["PDNO","OPRO_K"],
right_on=["PDNO","OPNO_K"])` merge. -/
def matchKey (b : MfgRow) (p : P41Row) : Bool :=
  b.pdno == p.pdno && b.oproK == p.opnoK

/-- Purchase lines matched to one order line by the canonicalized key. -/
def matchesOf (p041 : List P41Row) (b : MfgRow) : List P41Row :=
  p041.filter (matchKey b)

/-- Table `p045_sum`: receipts grouped and summed per `(PDNO, PONO, ORNO)`; the
value the left-merge attaches to a purchase line with that key (0 after
`fillna` when no receipt exists). -/
def dquaSum (p045 : List P45Row) (pdno : Option ℤ) (pono orno : String) : ℚ :=
  ((p045.filter (fun r => r.pdno == pdno && r.pono == pono && r.orno == orno)).map
    (fun r => r.dqua)).sum

/-- One row of the joined frame `j`, restricted to the three quantities the
final `groupby("MITM_N")` aggregates. -/
structure JRow : Type where
  zanV : ℚ
  oquaV : ℚ
  dquaV : ℚ
deriving DecidableEq

/-- Rows the left-merge produces for one order line: one all-zero-material
row when no purchase line matches (`OQUA`/`DQUA_SUM` filled with 0), else
one row per matching purchase line carrying its `OQUA` and the pre-summed
receipts of its `(PDNO, PONO, ORNO)` key.  The `注残` of the order line is
repeated on every produced row. -/
def jRows (p041 : List P41Row) (p045 : List P45Row) (b : MfgRow) : List JRow :=
  let ms := matchesOf p041 b
  if ms.isEmpty then [⟨zanOf b, 0, 0⟩]
  else ms.map (fun p => ⟨zanOf b, p.oqua, dquaSum p045 p.pdno p.pono p.orno⟩)

/-- Order lines of one part (`mfg_orders` filtered to `MITM_N == m`). -/
def partRows (mfg : List MfgRow) (m : String) : List MfgRow :=
  mfg.filter (fun b => b.mitm == m)

/-- The joined frame `j` restricted to one part. -/
def joinedRows (mfg : List MfgRow) (p041 : List P41Row) (p045 : List P45Row)
    (m : String) : List JRow :=
  (partRows mfg m).flatMap (jRows p041 p045)

/-- Column `A_注残` of the final groupby for one part. -/
def A_code (mfg : List MfgRow) (p041 : List P41Row) (p045 : List P45Row)
    (m : String) : ℚ :=
  ((joinedRows mfg p041 p045 m).map (fun r => r.zanV)).sum

/-- Column `B_OQUA` of the final groupby for one part. -/
def B_code (mfg : List MfgRow) (p041 : List P41Row) (p045 : List P45Row)
    (m : String) : ℚ :=
  ((joinedRows mfg p041 p045 m).map (fun r => r.oquaV)).sum

/-- Column `C_DQUA` of the final groupby for one part. -/
def C_code (mfg : List MfgRow) (p041 : List P41Row) (p045 : List P45Row)
    (m : String) : ℚ :=
  ((joinedRows mfg p041 p045 m).map (fun r => r.dquaV)).sum

/-- Function `load_paintable` for one part.  The function first collects
the non-null `PDNO` values of `mfg_orders` (`dropna()` at lines 285-287);
when the order table is empty or every order line's `PDNO` coerced to
null, it returns an empty frame, which `main` left-merges and fills so
that every part's `着手可` becomes 0.  Otherwise: when the purchase-line
table is empty, `着手可 = clip(Σ注残, lower=0)`; else
`着手可 = clip(A - (B - C), lower=0)` over the joined frame. -/
def paintable (mfg : List MfgRow) (p041 : List P41Row) (p045 : List P45Row)
    (m : String) : ℚ :=
  if (mfg.filter (fun b => b.pdno.isSome)).isEmpty then 0
  else if p041.isEmpty then
    max 0 (((partRows mfg m).map zanOf).sum)
  else
    max 0 (A_code mfg p041 p045 m - (B_code mfg p041 p045 m - C_code mfg p041 p045 m))

/-- Claim-side `A`: sum of the unclamped backlog over the part's order
lines, each line once. -/
def A_claim (mfg : List MfgRow) (m : String) : ℚ :=
  ((partRows mfg m).map zanOf).sum

/-- Purchase lines matched to at least one of the part's order lines. -/
def matchedLines (mfg : List MfgRow) (p041 : List P41Row) (m : String) :
    List P41Row :=
  p041.filter (fun p => (partRows mfg m).any (fun b => matchKey b p))

/-- Claim-side `B`: sum of `orderedQty` over the matched purchase lines,
each line once. -/
def B_claim (mfg : List MfgRow) (p041 : List P41Row) (m : String) : ℚ :=
  ((matchedLines mfg p041 m).map (fun p => p.oqua)).sum

/-- Claim-side `C`: sum of the delivered quantities of the receipts
attached to the matched purchase lines. -/
def C_claim (mfg : List MfgRow) (p041 : List P41Row) (p045 : List P45Row)
    (m : String) : ℚ :=
  ((matchedLines mfg p041 m).map (fun p => dquaSum p045 p.pdno p.pono p.orno)).sum

/-- The `(PDNO, OPRO_K)` key of an order line. -/
def mfgKey (b : MfgRow) : Option ℤ × String :=
  (b.pdno, b.oproK)

/-- The `(PDNO, OPNO_K)` key of a purchase line. -/
def p41Key (p : P41Row) : Option ℤ × String :=
  (p.pdno, p.opnoK)

/-! ### BOM explosion: `child_requirements.py` `run()` (lines 159-228)

`df_sched` rows are (production date, parent item, quantity) after the melt,
positive-quantity filter and period mask; `df_bom` rows are
(parent, child, per-unit quantity) after strip/numeric cleanup.  The loop
skips plan rows whose parent has no BOM lines and otherwise emits one record
per BOM line with `needQty = bomValue * prod_qty`; records are grouped by
(child, date), pivoted, and reindexed over `[TODAY, TODAY+HORIZON_DAYS]`
with `fill_value=0`. -/

/-- One production plan row of `df_sched`. -/
structure PlanRow : Type where
  item : String
  prodDate : ℤ
  qty : ℚ
deriving DecidableEq

/-- One BOM master row. -/
structure BomRow : Type where
  item : String
  sItem : String
  bomValue : ℚ
deriving DecidableEq

/-- Cache entry `bom_cache[parent]`: the BOM lines of one parent. -/
def bomOf (bom : List BomRow) (parent : String) : List BomRow :=
  bom.filter (fun b => b.item == parent)

/-- The explosion loop: one `(ProdDate, sItem, needQty)` record per BOM line
of each plan row whose parent is in the BOM cache; parents without BOM lines
are skipped. -/
def explodedRecords (sched : List PlanRow) (bom : List BomRow) :
    List (ℤ × String × ℚ) :=
  sched.flatMap (fun row =>
    if (bomOf bom row.item).isEmpty then []
    else (bomOf bom row.item).map (fun b => (row.prodDate, b.sItem, b.bomValue * row.qty)))

/-- Table `grouped`: total exploded demand of one child on one date
(`groupby(["sItem","ProdDate"]).sum()`; 0 when no record exists). -/
def groupedDemand (sched : List PlanRow) (bom : List BomRow) (c : String)
    (d : ℤ) : ℚ :=
  (((explodedRecords sched bom).filter (fun e => e.2.1 == c && e.1 == d)).map
    (fun e => e.2.2)).sum

/-- Claim-side demand: for each plan row of date `d`, the sum over the BOM
lines of its parent that produce child `c` of `perUnitQty * plannedQty`. -/
def demandSpec (sched : List PlanRow) (bom : List BomRow) (c : String)
    (d : ℤ) : ℚ :=
  ((sched.filter (fun p => p.prodDate == d)).map (fun p =>
    (((bomOf bom p.item).filter (fun b => b.sItem == c)).map
      (fun b => b.bomValue * p.qty)).sum)).sum

/-- The full horizon `[today, today + horizon]`, one entry per calendar
day, ascending (`all_days` of child_requirements.py). -/
def allDays (today : ℤ) (horizon : ℕ) : List ℤ :=
  (List.range (horizon + 1)).map (fun i : ℕ => today + (i : ℤ))

/-- The output row of one child after `pivot_table` and
`reindex(columns=all_days_str, fill_value=0)`: for every horizon day, the
grouped demand of the child on that day (0 where no record exists). -/
def childRow (sched : List PlanRow) (bom : List BomRow) (today : ℤ)
    (horizon : ℕ) (c : String) : List (ℤ × ℚ) :=
  (allDays today horizon).map (fun d => (d, groupedDemand sched bom c d))

/-! ## Theorems -/

/-- C3: `compute_shortage` returns as shortage date the first day on which
`availableQty - (cumulative demand through that day) ≤ 0`, never overwritten
by later days (`none` if no such day), and returns
`shortageQty = availableQty - (total demand over the whole horizon)`; in
particular `availableQty = 100` against daily demand `[40, 40, 40]` yields
shortage on day 3 with `shortageQty = -20`. -/
theorem compute_shortage_spec (inv_total : ℚ) (h : 0 ≤ inv_total)
    (demand : List (ℤ × ℚ)) :
    compute_shortage inv_total demand
      = (first_shortfall inv_total 0 demand,
          inv_total - (demand.map (fun x => x.2)).sum)
    ∧ compute_shortage 100 [(1, 40), (2, 40), (3, 40)] = (some 3, -20) := by
  constructor
  · show ((demand.foldl (shortage_step inv_total) (0, none)).2,
        inv_total - (demand.foldl (shortage_step inv_total) (0, none)).1)
      = (first_shortfall inv_total 0 demand,
          inv_total - (demand.map (fun x => x.2)).sum)
    rw [shortage_foldl_none, shortage_foldl_fst]
    norm_num
  · norm_num [compute_shortage, shortage_step]

/-- Witness for C3 at `availableQty = 100`, demand `[40, 40, 40]`. -/
theorem compute_shortage_spec_witness :
    compute_shortage 100 [(1, 40), (2, 40), (3, 40)] = (some 3, -20) :=
  (compute_shortage_spec 100 (by norm_num) []).2

/-- C5 counterexample: with an empty workday sequence, `backOffset`
(`delivery_date_from_shortage`) does not return the input date unchanged —
`workdays[due_idx]` raises `IndexError` (embedded as `none`) instead. -/
theorem delivery_empty_calendar_cex :
    delivery_date_from_shortage [] 0 5 ≠ some 0 := by
  decide

/-- C5 amended: with an empty workday sequence, `nearest_workday` returns
the input date unchanged, but `delivery_date_from_shortage` always fails
with an index error (`none`) rather than returning the input date. -/
theorem delivery_empty_calendar (d : ℤ) (n : ℕ) :
    nearest_workday [] d = d ∧ delivery_date_from_shortage [] d n = none := by
  constructor
  · rfl
  · show ([] : List ℤ)[(bisect_left [] (nearest_workday [] d) - n)]? = none
    rfl

/-- Helper: an unparsable cell canonicalizes to the sentinel string. -/
lemma to_int_str_of_unparsable (v : CellVal) (hv : toNumeric v = none) :
    to_int_str v = "-1" := by
  rw [to_int_str, hv]
  have h1 : truncToInt ((-1 : ℚ)) = -1 := by
    rw [truncToInt, if_neg (by norm_num), Int.ceil_eq_iff] <;> norm_num
  show toString (truncToInt ((none : Option ℚ).getD (-1))) = "-1"
  rw [Option.getD_none, h1]
  decide

/-- Helper: `to_int_str` of a float cell is the rendering of its
truncation. -/
lemma to_int_str_floatv (q : ℚ) :
    to_int_str (CellVal.floatv q) = toString (truncToInt q) := rfl

/-- C6: the canonicalization maps the integer `10`, the float `10.0` and the
padded string `"10 "` to the identical key `"10"`, maps any unparsable value
(such as `"abc"`) to the sentinel `"-1"`, and any two unparsable values
canonicalize to equal keys and therefore match each other. -/
theorem to_int_str_canonicalization (v w : CellVal)
    (hv : toNumeric v = none) (hw : toNumeric w = none) :
    to_int_str (CellVal.intv 10) = "10"
    ∧ to_int_str (CellVal.floatv 10) = "10"
    ∧ to_int_str (CellVal.strv "10 ") = "10"
    ∧ to_int_str (CellVal.strv "abc") = "-1"
    ∧ to_int_str v = "-1"
    ∧ to_int_str v = to_int_str w := by
  refine ⟨by decide, by decide, by decide, by decide,
    to_int_str_of_unparsable v hv, ?_⟩
  rw [to_int_str_of_unparsable v hv, to_int_str_of_unparsable w hw]

/-- Witness for C6: two concrete unparsable cells get equal keys. -/
theorem to_int_str_canonicalization_witness :
    to_int_str (CellVal.strv "abc") = to_int_str (CellVal.strv "xy") :=
  (to_int_str_canonicalization (CellVal.strv "abc") (CellVal.strv "xy")
    rfl rfl).2.2.2.2.2

/-- C10: canonicalization truncates toward zero, so values sharing an
integer part collide on one key: `10.5` and `10` both canonicalize to
`"10"` (and hence join to each other); a parsable value strictly between
`-2` and `0` canonicalizes to `"-1"` or `"0"`, with `-1.5 ↦ "-1"`
indistinguishable from the unparsable sentinel and `-0.9 ↦ "0"`. -/
theorem to_int_str_truncation (q r : ℚ) (hqr : truncToInt q = truncToInt r)
    (s : ℚ) (hs1 : -2 < s) (hs2 : s < 0) :
    to_int_str (CellVal.floatv q) = to_int_str (CellVal.floatv r)
    ∧ to_int_str (CellVal.floatv (21 / 2)) = "10"
    ∧ to_int_str (CellVal.floatv (21 / 2)) = to_int_str (CellVal.intv 10)
    ∧ (to_int_str (CellVal.floatv s) = "-1" ∨ to_int_str (CellVal.floatv s) = "0")
    ∧ to_int_str (CellVal.floatv (-(3 : ℚ) / 2)) = "-1"
    ∧ to_int_str (CellVal.floatv (-(9 : ℚ) / 10)) = "0"
    ∧ to_int_str (CellVal.floatv (-(3 : ℚ) / 2)) = to_int_str (CellVal.strv "abc") := by
  have h105 : truncToInt (21 / 2 : ℚ) = 10 := by
    rw [truncToInt, if_pos (by norm_num)]
    norm_num
  have h15 : truncToInt (-(3 : ℚ) / 2) = -1 := by
    rw [truncToInt, if_neg (by norm_num), Int.ceil_eq_iff] <;> norm_num
  have h09 : truncToInt (-(9 : ℚ) / 10) = 0 := by
    rw [truncToInt, if_neg (by norm_num)]
    norm_num
  have hceil : truncToInt s = ⌈s⌉ := by
    rw [truncToInt, if_neg (by exact not_le.mpr hs2)]
  have hup : ⌈s⌉ ≤ 0 := Int.ceil_le.mpr (by exact_mod_cast hs2.le)
  have hlow : (-2 : ℤ) < ⌈s⌉ := Int.lt_ceil.mpr (by exact_mod_cast hs1)
  refine ⟨by rw [to_int_str_floatv, to_int_str_floatv, hqr],
    by rw [to_int_str_floatv, h105]; decide,
    by rw [to_int_str_floatv, h105]; decide, ?_,
    by rw [to_int_str_floatv, h15]; decide,
    by rw [to_int_str_floatv, h09]; decide,
    by rw [to_int_str_floatv, h15]; decide⟩
  rcases (by omega : ⌈s⌉ = -1 ∨ ⌈s⌉ = 0) with hc | hc
  · exact Or.inl (by rw [to_int_str_floatv, hceil, hc]; decide)
  · exact Or.inr (by rw [to_int_str_floatv, hceil, hc]; decide)

/-- Witness for C10 at `q = 10.5`, `r = 10.0`, `s = -1.5`. -/
theorem to_int_str_truncation_witness :
    to_int_str (CellVal.floatv (21 / 2)) = to_int_str (CellVal.floatv 10)
    ∧ (to_int_str (CellVal.floatv (-(3 : ℚ) / 2)) = "-1"
        ∨ to_int_str (CellVal.floatv (-(3 : ℚ) / 2)) = "0") := by
  have h := to_int_str_truncation (21 / 2) 10
    (by rw [truncToInt, truncToInt, if_pos (by norm_num), if_pos (by norm_num)]; norm_num)
    (-(3 : ℚ) / 2) (by norm_num) (by norm_num)
  exact ⟨h.1, h.2.2.2.1⟩

/-- C1 counterexample: a part with on-hand stock 0, theoretical shelf count
50 and external stock 50.  The claim's netting base is
`0 + 50 + 50 = 100`, which against daily demand `[40, 40, 40]` shortfalls
on day 3 with quantity `-20`; `main` instead nets against
`float(r["STOC"]) = 0` and shortfalls on day 1 with quantity `-120`. -/
theorem main_netting_base_cex :
    mainShortage [⟨"P", "W", 0⟩] [("P", 50)] [("P", 50)]
        [(1, 40), (2, 40), (3, 40)] "P" "W"
      ≠ compute_shortage
          (totalAvailableSpec [⟨"P", "W", 0⟩] [("P", 50)] [("P", 50)] "P" "W")
          [(1, 40), (2, 40), (3, 40)]
    ∧ mainShortage [⟨"P", "W", 0⟩] [("P", 50)] [("P", 50)]
        [(1, 40), (2, 40), (3, 40)] "P" "W" = (some 1, -120)
    ∧ compute_shortage
        (totalAvailableSpec [⟨"P", "W", 0⟩] [("P", 50)] [("P", 50)] "P" "W")
        [(1, 40), (2, 40), (3, 40)] = (some 3, -20) := by
  have h1 : stocOf [⟨"P", "W", 0⟩] "P" "W" = 0 := by
    norm_num [stocOf]
  have h2 : totalAvailableSpec [⟨"P", "W", 0⟩] [("P", 50)] [("P", 50)] "P" "W"
      = 100 := by
    norm_num [totalAvailableSpec, stocOf, sumOf]
  have h3 : mainShortage [⟨"P", "W", 0⟩] [("P", 50)] [("P", 50)]
      [(1, 40), (2, 40), (3, 40)] "P" "W" = (some 1, -120) := by
    rw [mainShortage, h1]
    norm_num [compute_shortage, shortage_step]
    decide
  have h4 : compute_shortage
      (totalAvailableSpec [⟨"P", "W", 0⟩] [("P", 50)] [("P", 50)] "P" "W")
      [(1, 40), (2, 40), (3, 40)] = (some 3, -20) := by
    rw [h2]
    norm_num [compute_shortage, shortage_step]
  refine ⟨?_, h3, h4⟩
  rw [h3, h4]
  simp

/-- C1 amended: the quantity the shortage detector nets cumulative demand
against is the on-hand stock alone (`STOC`, summed per part/warehouse,
0 when absent); the theoretical shelf count and external-warehouse stock
are summed into `在庫合計` but do not enter the netting base, so the
shortage result is invariant under any change of those two sources. -/
theorem main_nets_stoc_only (inv : List InvRow)
    (th ext th2 ext2 : List (String × ℚ)) (demand : List (ℤ × ℚ))
    (m cwar : String) :
    mainShortage inv th ext demand m cwar
      = compute_shortage (stocOf inv m cwar) demand
    ∧ mainShortage inv th ext demand m cwar
      = mainShortage inv th2 ext2 demand m cwar
    ∧ zaiko_goukei th ext m = sumOf th m + sumOf ext m
    ∧ ((∀ r ∈ inv, ¬(r.item = m ∧ r.cwar = cwar)) → stocOf inv m cwar = 0) := by
  refine ⟨rfl, rfl, rfl, fun habs => ?_⟩
  have hfil : inv.filter (fun r => r.item == m && r.cwar == cwar) = [] := by
    rw [List.filter_eq_nil_iff]
    intro r hr
    have := habs r hr
    simp only [Bool.and_eq_true, beq_iff_eq]
    tauto
  rw [stocOf, hfil]
  simp

/-- Witness for C1's amended statement: a part absent from the stock table
nets against 0. -/
theorem main_nets_stoc_only_witness :
    stocOf [⟨"Q", "W", 5⟩] "P" "W" = 0 :=
  (main_nets_stoc_only [⟨"Q", "W", 5⟩] [] [] [] [] [] "P" "W").2.2.2
    (by intro r hr; simp at hr; rw [hr]; simp)

/-- Helper: pushing a sum through `flatMap`. -/
lemma sum_map_flatMap {α β : Type} (l : List α) (f : α → List β) (g : β → ℚ) :
    ((l.flatMap f).map g).sum = (l.map (fun a => ((f a).map g).sum)).sum := by
  induction l with
  | nil => simp
  | cons a t ih => simp [ih]

/-- Helper: a filter by a disjunction of pointwise-exclusive predicates
splits a sum. -/
lemma sum_map_filter_or {α : Type} (l : List α) (P Q : α → Bool) (g : α → ℚ)
    (hdisj : ∀ x ∈ l, ¬(P x = true ∧ Q x = true)) :
    ((l.filter (fun x => P x || Q x)).map g).sum
      = ((l.filter P).map g).sum + ((l.filter Q).map g).sum := by
  induction l with
  | nil => simp
  | cons a t ih =>
      have ht : ∀ x ∈ t, ¬(P x = true ∧ Q x = true) := fun x hx =>
        hdisj x (List.mem_cons_of_mem a hx)
      have ha := hdisj a (List.mem_cons_self a t)
      cases hP : P a <;> cases hQ : Q a
      · simp [List.filter_cons, hP, hQ, ih ht]
      · simp [List.filter_cons, hP, hQ, ih ht]
        ring
      · simp [List.filter_cons, hP, hQ, ih ht]
        ring
      · exact absurd ⟨hP, hQ⟩ ha

/-- Helper: two purchase lines matched by the same order line share their
`(PDNO, OPNO_K)` key. -/
lemma p41Key_eq_of_matchKey {b : MfgRow} {p q : P41Row}
    (h1 : matchKey b p = true) (h2 : matchKey b q = true) :
    p41Key p = p41Key q := by
  simp only [matchKey, Bool.and_eq_true, beq_iff_eq] at h1 h2
  simp only [p41Key, ← h1.1, ← h1.2, ← h2.1, ← h2.2]

/-- Helper: two order lines matching the same purchase line share their
`(PDNO, OPRO_K)` key. -/
lemma mfgKey_eq_of_matchKey {b c : MfgRow} {p : P41Row}
    (h1 : matchKey b p = true) (h2 : matchKey c p = true) :
    mfgKey b = mfgKey c := by
  simp only [matchKey, Bool.and_eq_true, beq_iff_eq] at h1 h2
  simp only [mfgKey, h1.1, h1.2, h2.1, h2.2]

/-- Helper: with pairwise-distinct purchase-line keys, an order line matches
at most one purchase line. -/
lemma matchesOf_length_le_one (p041 : List P41Row)
    (hp : p041.Pairwise (fun p q => p41Key p ≠ p41Key q)) (b : MfgRow) :
    (matchesOf p041 b).length ≤ 1 := by
  induction p041 with
  | nil => simp [matchesOf]
  | cons p t ih =>
      rcases List.pairwise_cons.mp hp with ⟨hhead, htail⟩
      by_cases hm : matchKey b p = true
      · have hnil : matchesOf t b = [] := by
          rw [matchesOf, List.filter_eq_nil_iff]
          intro q hq hmq
          exact hhead q hq (p41Key_eq_of_matchKey hm hmq)
        rw [matchesOf] at hnil ⊢
        rw [List.filter_cons, if_pos hm, hnil]
        simp
      · simpa [matchesOf, List.filter_cons, hm] using ih htail

/-- Helper: the `注残` contributed to `A` by one order line of the joined
frame is its own `注残` exactly once, provided purchase-line keys are
pairwise distinct. -/
lemma jRows_zan_sum (p041 : List P41Row) (p045 : List P45Row)
    (hp : p041.Pairwise (fun p q => p41Key p ≠ p41Key q)) (b : MfgRow) :
    ((jRows p041 p045 b).map (fun r => r.zanV)).sum = zanOf b := by
  rw [jRows]
  by_cases he : (matchesOf p041 b).isEmpty
  · simp [he]
  · rw [if_neg he]
    have hlen := matchesOf_length_le_one p041 hp b
    cases hms : matchesOf p041 b with
    | nil => rw [hms] at he; simp at he
    | cons p t =>
        rw [hms] at hlen
        have : t = [] := by
          cases t with
          | nil => rfl
          | cons q t2 => simp at hlen
        subst this
        simp

/-- Helper: the `OQUA` contributed to `B` by one order line is the sum of
the `OQUA` of its matched purchase lines (no hypothesis needed: the
no-match row contributes a filled-in 0). -/
lemma jRows_oqua_sum (p041 : List P41Row) (p045 : List P45Row) (b : MfgRow) :
    ((jRows p041 p045 b).map (fun r => r.oquaV)).sum
      = ((matchesOf p041 b).map (fun p => p.oqua)).sum := by
  rw [jRows]
  by_cases he : (matchesOf p041 b).isEmpty
  · rw [List.isEmpty_iff.mp he]
    simp
  · rw [if_neg he, List.map_map]
    rfl

/-- Helper: the `DQUA_SUM` contributed to `C` by one order line is the sum
of the pre-aggregated receipts of its matched purchase lines. -/
lemma jRows_dqua_sum (p041 : List P41Row) (p045 : List P45Row) (b : MfgRow) :
    ((jRows p041 p045 b).map (fun r => r.dquaV)).sum
      = ((matchesOf p041 b).map
          (fun p => dquaSum p045 p.pdno p.pono p.orno)).sum := by
  rw [jRows]
  by_cases he : (matchesOf p041 b).isEmpty
  · rw [List.isEmpty_iff.mp he]
    simp
  · rw [if_neg he, List.map_map]
    rfl

/-- Helper: with pairwise-distinct order-line keys, summing a quantity over
each line's matched purchase lines equals summing it once over every
purchase line matched by some line. -/
lemma sum_over_matches (p041 : List P41Row) (g : P41Row → ℚ) :
    ∀ bs : List MfgRow, bs.Pairwise (fun b c => mfgKey b ≠ mfgKey c) →
      (bs.map (fun b => ((matchesOf p041 b).map g).sum)).sum
        = ((p041.filter (fun p => bs.any (fun b => matchKey b p))).map g).sum := by
  intro bs
  induction bs with
  | nil => simp
  | cons b t ih =>
      intro hb
      rcases List.pairwise_cons.mp hb with ⟨hhead, htail⟩
      rw [List.map_cons, List.sum_cons, ih htail]
      have hpred : (fun p => (b :: t).any (fun c => matchKey c p))
          = fun p => matchKey b p || t.any (fun c => matchKey c p) := by
        funext p
        rw [List.any_cons]
      rw [hpred, sum_map_filter_or]
      · rfl
      · intro p _ hboth
        rcases List.any_eq_true.mp hboth.2 with ⟨c, hc, hmc⟩
        exact hhead c hc (mfgKey_eq_of_matchKey hboth.1 hmc)

/-- Helper: `A_注残` of the groupby equals the claim-side `A` when
purchase-line keys are pairwise distinct. -/
lemma A_code_eq_claim (mfg : List MfgRow) (p041 : List P41Row)
    (p045 : List P45Row) (m : String)
    (hp : p041.Pairwise (fun p q => p41Key p ≠ p41Key q)) :
    A_code mfg p041 p045 m = A_claim mfg m := by
  rw [A_code, joinedRows, sum_map_flatMap, A_claim]
  exact congrArg List.sum
    (List.map_congr_left (fun b _ => jRows_zan_sum p041 p045 hp b))

/-- Helper: `B_OQUA` of the groupby written without the receipt table. -/
lemma B_code_eq_matches (mfg : List MfgRow) (p041 : List P41Row)
    (p045 : List P45Row) (m : String) :
    B_code mfg p041 p045 m
      = ((partRows mfg m).map
          (fun b => ((matchesOf p041 b).map (fun p => p.oqua)).sum)).sum := by
  rw [B_code, joinedRows, sum_map_flatMap]
  exact congrArg List.sum
    (List.map_congr_left (fun b _ => jRows_oqua_sum p041 p045 b))

/-- Helper: pairwise-distinct keys on the order lines survive the part
filter. -/
lemma partRows_pairwise (mfg : List MfgRow) (m : String)
    (hb : mfg.Pairwise (fun b c => mfgKey b ≠ mfgKey c)) :
    (partRows mfg m).Pairwise (fun b c => mfgKey b ≠ mfgKey c) :=
  List.Pairwise.sublist (List.filter_sublist mfg) hb

/-- Helper: `B_OQUA` equals the claim-side `B` when order-line keys are
pairwise distinct. -/
lemma B_code_eq_claim (mfg : List MfgRow) (p041 : List P41Row)
    (p045 : List P45Row) (m : String)
    (hb : mfg.Pairwise (fun b c => mfgKey b ≠ mfgKey c)) :
    B_code mfg p041 p045 m = B_claim mfg p041 m := by
  rw [B_code_eq_matches, B_claim, matchedLines]
  exact sum_over_matches p041 (fun p => p.oqua) (partRows mfg m)
    (partRows_pairwise mfg m hb)

/-- Helper: `C_DQUA` equals the claim-side `C` when order-line keys are
pairwise distinct. -/
lemma C_code_eq_claim (mfg : List MfgRow) (p041 : List P41Row)
    (p045 : List P45Row) (m : String)
    (hb : mfg.Pairwise (fun b c => mfgKey b ≠ mfgKey c)) :
    C_code mfg p041 p045 m = C_claim mfg p041 p045 m := by
  rw [C_code, joinedRows, sum_map_flatMap, C_claim, matchedLines]
  rw [congrArg List.sum
    (List.map_congr_left (fun b _ => jRows_dqua_sum p041 p045 b))]
  exact sum_over_matches p041 (fun p => dquaSum p045 p.pdno p.pono p.orno)
    (partRows mfg m) (partRows_pairwise mfg m hb)

/-- C2 counterexample: a part whose only open order line carries a null
`PDNO` (unparsable under `pd.to_numeric(..., errors="coerce")`) and
backlog 50.  No purchase line matches any of its order lines, so the claim
demands `startableQty = max(0, A) = 50`; but `load_paintable` takes the
`if not pdnos` early return (lines 285-287) and the part's `着手可` is
filled as 0. -/
theorem paintable_null_pdno_cex :
    paintable [⟨none, "10", "P", some 50, some 0⟩] [] [] "P"
      ≠ max 0 (A_claim [⟨none, "10", "P", some 50, some 0⟩] "P")
    ∧ matchedLines [⟨none, "10", "P", some 50, some 0⟩] [] "P" = []
    ∧ paintable [⟨none, "10", "P", some 50, some 0⟩] [] [] "P" = 0
    ∧ max 0 (A_claim [⟨none, "10", "P", some 50, some 0⟩] "P") = 50 := by
  have h0 : paintable [⟨none, "10", "P", some 50, some 0⟩] [] [] "P" = 0 := by
    have hc : (List.filter (fun b => b.pdno.isSome)
        [(⟨none, "10", "P", some 50, some 0⟩ : MfgRow)]).isEmpty = true := rfl
    rw [paintable, if_pos hc]
  have hA : max 0 (A_claim [⟨none, "10", "P", some 50, some 0⟩] "P") = 50 := by
    norm_num [A_claim, partRows, zanOf]
  refine ⟨?_, rfl, h0, hA⟩
  rw [h0, hA]
  norm_num

/-- C2 amended: provided at least one open manufacturing-order line carries
a non-null `PDNO` — otherwise `load_paintable` returns an empty table and
every part's `着手可` is filled as 0 downstream — and with the
`(PDNO, line-number)` keys identifying lines on both sides of the join
(pairwise-distinct among purchase lines and among order lines, as the
natural keys of `TTDPUR041002` and `TTISFC001002` provide), the reconciler
returns `着手可 = max(0, A - (B - C))` per part, with
`A = Σ` unclamped `注残` over the part's order lines, `B = Σ OQUA` over
the matched purchase lines and `C = Σ DQUA` over their receipts; and
`max(0, A)` when no purchase line matches any of the part's order
lines. -/
theorem paintable_formula (mfg : List MfgRow) (p041 : List P41Row)
    (p045 : List P45Row) (m : String)
    (hp : p041.Pairwise (fun p q => p41Key p ≠ p41Key q))
    (hb : mfg.Pairwise (fun b c => mfgKey b ≠ mfgKey c))
    (hpd : (mfg.filter (fun b => b.pdno.isSome)).isEmpty = false) :
    paintable mfg p041 p045 m
      = max 0 (A_claim mfg m - (B_claim mfg p041 m - C_claim mfg p041 p045 m))
    ∧ (matchedLines mfg p041 m = [] →
        paintable mfg p041 p045 m = max 0 (A_claim mfg m)) := by
  have hmain : paintable mfg p041 p045 m
      = max 0 (A_claim mfg m - (B_claim mfg p041 m - C_claim mfg p041 p045 m)) := by
    rw [paintable, if_neg (by simp [hpd])]
    by_cases he : p041.isEmpty
    · rw [if_pos he, List.isEmpty_iff.mp he]
      simp [B_claim, C_claim, matchedLines, A_claim]
    · rw [if_neg he, A_code_eq_claim mfg p041 p045 m hp,
        B_code_eq_claim mfg p041 p045 m hb, C_code_eq_claim mfg p041 p045 m hb]
  refine ⟨hmain, fun hml => ?_⟩
  rw [hmain, B_claim, C_claim, hml]
  simp

/-- Witness for C2: the spec's own scenario `A=50`, `B=30`, `C=10`
(one order line with a non-null `PDNO`, one matched purchase line, one
receipt) gives `着手可 = 30`. -/
theorem paintable_formula_witness :
    paintable [⟨some 1, "10", "P", some 50, some 0⟩]
      [⟨some 1, "10", "PO1", "R1", 30⟩] [⟨some 1, "PO1", "R1", 10⟩] "P" = 30 := by
  have h := paintable_formula [⟨some 1, "10", "P", some 50, some 0⟩]
      [⟨some 1, "10", "PO1", "R1", 30⟩] [⟨some 1, "PO1", "R1", 10⟩] "P"
      (by simp) (by simp) rfl
  rw [h.1]
  norm_num [A_claim, B_claim, C_claim, matchedLines, partRows, matchKey,
    zanOf, dquaSum]

/-- C4: the `B` total is independent of the receipt table — a purchase
line's `orderedQty` enters `B` identically whether 0, 1 or many receipt
rows share its `(PDNO, PONO, ORNO)` key, because receipts are grouped and
summed before the join; and under pairwise-distinct order-line keys each
matched purchase line contributes its `OQUA` exactly once. -/
theorem B_not_inflated (mfg : List MfgRow) (p041 : List P41Row) (m : String)
    (hb : mfg.Pairwise (fun b c => mfgKey b ≠ mfgKey c)) :
    (∀ p045 p045' : List P45Row,
        B_code mfg p041 p045 m = B_code mfg p041 p045' m)
    ∧ (∀ p045 : List P45Row, B_code mfg p041 p045 m = B_claim mfg p041 m) := by
  constructor
  · intro p045 p045'
    rw [B_code_eq_matches mfg p041 p045 m, B_code_eq_matches mfg p041 p045' m]
  · intro p045
    exact B_code_eq_claim mfg p041 p045 m hb

/-- Witness for C4: one purchase line with three receipts against its key
contributes `B = 30` exactly once, the same as with no receipts. -/
theorem B_not_inflated_witness :
    B_code [⟨some 1, "10", "P", some 50, some 0⟩]
        [⟨some 1, "10", "PO1", "R1", 30⟩]
        [⟨some 1, "PO1", "R1", 4⟩, ⟨some 1, "PO1", "R1", 5⟩, ⟨some 1, "PO1", "R1", 6⟩]
        "P" = 30
    ∧ B_code [⟨some 1, "10", "P", some 50, some 0⟩]
        [⟨some 1, "10", "PO1", "R1", 30⟩] [] "P" = 30 := by
  have h := B_not_inflated [⟨some 1, "10", "P", some 50, some 0⟩]
      [⟨some 1, "10", "PO1", "R1", 30⟩] "P" (by simp)
  constructor
  · rw [h.2 [⟨some 1, "PO1", "R1", 4⟩, ⟨some 1, "PO1", "R1", 5⟩, ⟨some 1, "PO1", "R1", 6⟩]]
    norm_num [B_claim, matchedLines, partRows, matchKey]
  · rw [h.2 []]
    norm_num [B_claim, matchedLines, partRows, matchKey]

/-- Helper: exploded records of an appended schedule. -/
lemma explodedRecords_append (s1 s2 : List PlanRow) (bom : List BomRow) :
    explodedRecords (s1 ++ s2) bom
      = explodedRecords s1 bom ++ explodedRecords s2 bom := by
  rw [explodedRecords, explodedRecords, explodedRecords, List.flatMap_append]

/-- Helper: the grouped demand of an appended schedule splits. -/
lemma groupedDemand_append (s1 s2 : List PlanRow) (bom : List BomRow)
    (c : String) (d : ℤ) :
    groupedDemand (s1 ++ s2) bom c d
      = groupedDemand s1 bom c d + groupedDemand s2 bom c d := by
  rw [groupedDemand, groupedDemand, groupedDemand, explodedRecords_append,
    List.filter_append, List.map_append, List.sum_append]

/-- Helper: the grouped demand contributed by one plan row. -/
lemma groupedDemand_single (p : PlanRow) (bom : List BomRow) (c : String)
    (d : ℤ) :
    groupedDemand [p] bom c d
      = if p.prodDate == d then
          (((bomOf bom p.item).filter (fun b => b.sItem == c)).map
            (fun b => b.bomValue * p.qty)).sum
        else 0 := by
  rw [groupedDemand]
  have hexp : explodedRecords [p] bom
      = if (bomOf bom p.item).isEmpty then []
        else (bomOf bom p.item).map
          (fun b => (p.prodDate, b.sItem, b.bomValue * p.qty)) := by
    rw [explodedRecords]
    simp
  rw [hexp]
  by_cases he : (bomOf bom p.item).isEmpty
  · rw [if_pos he, List.isEmpty_iff.mp he]
    simp
  · rw [if_neg he, List.filter_map, List.map_map]
    cases hd : (p.prodDate == d)
    · have hcomp : ((fun e : ℤ × String × ℚ => e.2.1 == c && e.1 == d) ∘
          fun b : BomRow => (p.prodDate, b.sItem, b.bomValue * p.qty))
          = fun _ => false := by
        funext b
        simp [Function.comp, hd]
      rw [hcomp]
      simp
    · have hcomp : ((fun e : ℤ × String × ℚ => e.2.1 == c && e.1 == d) ∘
          fun b : BomRow => (p.prodDate, b.sItem, b.bomValue * p.qty))
          = fun b : BomRow => b.sItem == c := by
        funext b
        simp [Function.comp, hd]
      rw [hcomp]
      refine congrArg List.sum (List.map_congr_left ?_)
      intro b hb
      rfl

/-- Helper: the claim-side demand of a cons schedule splits off the head
row's contribution. -/
lemma demandSpec_cons (p : PlanRow) (rest : List PlanRow) (bom : List BomRow)
    (c : String) (d : ℤ) :
    demandSpec (p :: rest) bom c d
      = (if p.prodDate == d then
          (((bomOf bom p.item).filter (fun b => b.sItem == c)).map
            (fun b => b.bomValue * p.qty)).sum
        else 0) + demandSpec rest bom c d := by
  cases hd : (p.prodDate == d) <;>
    simp [demandSpec, List.filter_cons, hd]

/-- C7: for every child part and date, the exploded demand equals the sum
over the plan entries of that date, and over the BOM lines of each entry's
parent producing that child, of `perUnitQty × plannedQty`; a plan entry
whose parent has zero BOM lines contributes no demand at all (removing it
leaves every grouped total unchanged). -/
theorem explosion_demand_spec (sched : List PlanRow) (bom : List BomRow)
    (c : String) (d : ℤ) :
    groupedDemand sched bom c d = demandSpec sched bom c d
    ∧ (∀ (pre post : List PlanRow) (p : PlanRow), bomOf bom p.item = [] →
        groupedDemand (pre ++ p :: post) bom c d
          = groupedDemand (pre ++ post) bom c d) := by
  constructor
  · induction sched with
    | nil => simp [groupedDemand, demandSpec, explodedRecords]
    | cons p rest ih =>
        have hsplit := groupedDemand_append [p] rest bom c d
        rw [show ([p] ++ rest) = p :: rest from rfl] at hsplit
        rw [hsplit, ih, groupedDemand_single, demandSpec_cons]
  · intro pre post p hb
    have h1 := groupedDemand_append pre (p :: post) bom c d
    have h2 := groupedDemand_append [p] post bom c d
    rw [show ([p] ++ post) = p :: post from rfl] at h2
    rw [h1, h2, groupedDemand_single, groupedDemand_append]
    rw [hb]
    simp

/-- Witness for C7: a plan row whose parent has no BOM line produces no
demand. -/
theorem explosion_demand_spec_witness :
    groupedDemand [⟨"P1", 5, 7⟩, ⟨"X", 5, 9⟩] [⟨"P1", "C1", 2⟩] "C1" 5
      = groupedDemand [⟨"P1", 5, 7⟩] [⟨"P1", "C1", 2⟩] "C1" 5 :=
  (explosion_demand_spec [⟨"P1", 5, 7⟩] [⟨"P1", "C1", 2⟩] "C1" 5).2
    [⟨"P1", 5, 7⟩] [] ⟨"X", 5, 9⟩ (by rfl)

/-- C8: the output row of every child present in the explosion spans
exactly the horizon `[today, today + horizonDays]` — one quantity per
calendar day (61 for the 60-day horizon), in ascending date order, with
days that received no demand present as the grouped-demand value 0 rather
than absent. -/
theorem childRow_densified (sched : List PlanRow) (bom : List BomRow)
    (today : ℤ) (horizon : ℕ) (c : String) :
    (childRow sched bom today horizon c).map (fun x => x.1)
      = allDays today horizon
    ∧ (childRow sched bom today horizon c).length = horizon + 1
    ∧ (childRow sched bom today 60 c).length = 61
    ∧ List.Sorted (· < ·)
        ((childRow sched bom today horizon c).map (fun x => x.1))
    ∧ (∀ d : ℤ, d ∈ allDays today horizon ↔ today ≤ d ∧ d ≤ today + horizon)
    ∧ (allDays today horizon).Nodup
    ∧ (∀ i : ℕ, i ≤ horizon →
        (today + i, groupedDemand sched bom c (today + i))
          ∈ childRow sched bom today horizon c) := by
  have hfst : (childRow sched bom today horizon c).map (fun x => x.1)
      = allDays today horizon := by
    rw [childRow, List.map_map]
    have hcomp : ((fun x : ℤ × ℚ => x.1) ∘
        fun d => (d, groupedDemand sched bom c d)) = id := by
      funext d
      rfl
    rw [hcomp, List.map_id]
  have hsorted : List.Sorted (· < ·) (allDays today horizon) := by
    rw [allDays]
    refine List.Pairwise.map _ ?_ (List.pairwise_lt_range (horizon + 1))
    intro i j hij
    omega
  have hmem : ∀ d : ℤ, d ∈ allDays today horizon
      ↔ today ≤ d ∧ d ≤ today + horizon := by
    intro d
    rw [allDays]
    constructor
    · intro hd
      rcases List.mem_map.mp hd with ⟨i, hi, rfl⟩
      have := List.mem_range.mp hi
      omega
    · intro hd
      refine List.mem_map.mpr ⟨(d - today).toNat, List.mem_range.mpr ?_, ?_⟩
      · omega
      · omega
  refine ⟨hfst, ?_, ?_, ?_, hmem, ?_, ?_⟩
  · rw [childRow, List.length_map, allDays, List.length_map, List.length_range]
  · rw [childRow, List.length_map, allDays, List.length_map, List.length_range]
  · rw [hfst]
    exact hsorted
  · exact hsorted.nodup
  · intro i hi
    rw [childRow]
    refine List.mem_map.mpr ⟨today + i, ?_, rfl⟩
    exact (hmem (today + i)).mpr (by constructor <;> omega)

/-- Witness for C8: day 0 of a 60-day horizon carries an explicit (zero)
demand entry. -/
theorem childRow_densified_witness :
    ((0 : ℤ), groupedDemand [] [] "C1" 0) ∈ childRow [] [] 0 60 "C1" :=
  (childRow_densified [] [] 0 60 "C1").2.2.2.2.2.2 0 (by norm_num)

/-- Helper: `bisect_left` past a head below the probe. -/
lemma bisect_left_cons_pos (x : ℤ) (xs : List ℤ) (t : ℤ) (h : x < t) :
    bisect_left (x :: xs) t = bisect_left xs t + 1 := by
  rw [bisect_left, bisect_left, List.takeWhile_cons]
  simp [h]

/-- Helper: `bisect_left` stops at a head not below the probe. -/
lemma bisect_left_cons_neg (x : ℤ) (xs : List ℤ) (t : ℤ) (h : ¬ x < t) :
    bisect_left (x :: xs) t = 0 := by
  rw [bisect_left, List.takeWhile_cons]
  simp [h]

lemma bisect_left_le_length (l : List ℤ) (t : ℤ) :
    bisect_left l t ≤ l.length := by
  induction l with
  | nil => simp [bisect_left]
  | cons x xs ih =>
      by_cases h : x < t
      · rw [bisect_left_cons_pos x xs t h, List.length_cons]
        omega
      · rw [bisect_left_cons_neg x xs t h]
        omega

/-- Helper: positions strictly inside the insertion-point prefix hold values
below the probe. -/
lemma getD_lt_of_lt_bisect (l : List ℤ) (t : ℤ) :
    ∀ k : ℕ, k < bisect_left l t → l.getD k 0 < t := by
  induction l with
  | nil => intro k hk; simp [bisect_left] at hk
  | cons x xs ih =>
      intro k hk
      by_cases h : x < t
      · cases k with
        | zero => simpa [List.getD_cons_zero] using h
        | succ k2 =>
            rw [bisect_left_cons_pos x xs t h] at hk
            rw [List.getD_cons_succ]
            exact ih k2 (by omega)
      · rw [bisect_left_cons_neg x xs t h] at hk
        omega

/-- Helper: the value at the insertion point is not below the probe. -/
lemma not_getD_bisect_lt (l : List ℤ) (t : ℤ) :
    ∀ _ : bisect_left l t < l.length, ¬ l.getD (bisect_left l t) 0 < t := by
  induction l with
  | nil => intro h; simp [bisect_left] at h
  | cons x xs ih =>
      intro h
      by_cases hx : x < t
      · rw [bisect_left_cons_pos x xs t hx] at h ⊢
        rw [List.getD_cons_succ]
        rw [List.length_cons] at h
        exact ih (by omega)
      · rw [bisect_left_cons_neg x xs t hx, List.getD_cons_zero]
        exact hx

lemma bisect_le_of_not_lt (l : List ℤ) (t : ℤ) (k : ℕ)
    (h : ¬ l.getD k 0 < t) : bisect_left l t ≤ k := by
  by_contra hlt
  push_neg at hlt
  exact h (getD_lt_of_lt_bisect l t k hlt)

/-- Helper: `getD` of a strictly sorted list is monotone on in-range
indices. -/
lemma sorted_getD_le (l : List ℤ) (hs : l.Sorted (· < ·)) (i j : ℕ)
    (hij : i ≤ j) (hj : j < l.length) : l.getD i 0 ≤ l.getD j 0 := by
  have hi : i < l.length := lt_of_le_of_lt hij hj
  rw [List.getD_eq_getElem l 0 hi, List.getD_eq_getElem l 0 hj]
  rcases Nat.eq_or_lt_of_le hij with heq | hlt
  · subst heq
    exact le_refl _
  · have hr := hs.rel_get_of_lt (a := ⟨i, hi⟩) (b := ⟨j, hj⟩)
      (Fin.mk_lt_mk.mpr hlt)
    simpa [List.get_eq_getElem] using le_of_lt hr

lemma getD_mem (l : List ℤ) (k : ℕ) (hk : k < l.length) : l.getD k 0 ∈ l := by
  rw [List.getD_eq_getElem l 0 hk]
  exact List.getElem_mem hk

/-- Helper: on a strictly sorted list, `bisect_left` of a member is its
(first) index. -/
lemma bisect_left_indexOf (l : List ℤ) (hs : l.Sorted (· < ·)) (t : ℤ)
    (hm : t ∈ l) : bisect_left l t = l.indexOf t := by
  induction l with
  | nil => simp at hm
  | cons x xs ih =>
      rcases List.mem_cons.mp hm with rfl | hmx
      · rw [bisect_left_cons_neg _ _ _ (lt_irrefl t), List.indexOf_cons_self]
      · have hx : x < t := (List.sorted_cons.mp hs).1 t hmx
        rw [bisect_left_cons_pos _ _ _ hx, ih (List.sorted_cons.mp hs).2 hmx,
          List.indexOf_cons_ne xs (ne_of_lt hx)]

/-- Helper: every member of a strictly sorted non-empty list is at most its
last element. -/
lemma sorted_le_getLast (l : List ℤ) (hs : l.Sorted (· < ·)) (hne : l ≠ [])
    (w : ℤ) (hw : w ∈ l) : w ≤ l.getLast hne := by
  obtain ⟨k, hk, rfl⟩ := List.getElem_of_mem hw
  have hpos : 0 < l.length := List.length_pos.mpr hne
  rw [List.getLast_eq_getElem, ← List.getD_eq_getElem l 0 hk,
    ← List.getD_eq_getElem l 0 (show l.length - 1 < l.length by omega)]
  exact sorted_getD_le l hs k (l.length - 1) (by omega) (by omega)

/-- Helper: the unfolded form of `nearest_workday` on a non-empty list. -/
lemma nearest_workday_cons (w0 : ℤ) (rest : List ℤ) (t : ℤ) :
    nearest_workday (w0 :: rest) t
      = (if t ≤ w0 then w0
         else if (w0 :: rest).getLast (List.cons_ne_nil w0 rest) ≤ t then
           (w0 :: rest).getLast (List.cons_ne_nil w0 rest)
         else if t - (w0 :: rest).getD (bisect_left (w0 :: rest) t - 1) 0
             ≤ (w0 :: rest).getD (bisect_left (w0 :: rest) t) 0 - t then
           (w0 :: rest).getD (bisect_left (w0 :: rest) t - 1) 0
         else (w0 :: rest).getD (bisect_left (w0 :: rest) t) 0) := rfl

/-- Helper: once the snapped date is known to be a calendar member,
`delivery_date_from_shortage` is total and lands on the clamped
back-offset index. -/
lemma delivery_eq_of_mem (l : List ℤ) (h1 : l.Sorted (· < ·)) (t : ℤ)
    (n : ℕ) (hsmem : nearest_workday l t ∈ l) :
    delivery_date_from_shortage l t n
      = some (l.getD (l.indexOf (nearest_workday l t) - n) 0) := by
  have hidx : l.indexOf (nearest_workday l t) < l.length :=
    List.indexOf_lt_length.mpr hsmem
  have hdue : l.indexOf (nearest_workday l t) - n < l.length := by omega
  simp only [delivery_date_from_shortage]
  rw [bisect_left_indexOf l h1 _ hsmem, List.getElem?_eq_getElem hdue,
    List.getD_eq_getElem l 0 hdue]

lemma abs_sub_of_le_left (a b : ℤ) (h : b ≤ a) : |a - b| = a - b :=
  abs_of_nonneg (by omega)

lemma abs_sub_of_le_right (a b : ℤ) (h : a ≤ b) : |a - b| = b - a := by
  rw [abs_of_nonpos (by omega : a - b ≤ 0)]
  omega

/-- C9: for a non-empty ascending workday list, `nearest_workday` returns a
calendar member minimizing the absolute day distance to the target, ties
going to the earlier day, snapping to the first (last) workday when the
target is at or before (at or after) it; and `backOffset`
(`delivery_date_from_shortage`) returns the workday at index
`max(0, i - n)` where `i` is the index of that nearest workday. -/
theorem backoffset_spec (l : List ℤ) (h1 : l.Sorted (· < ·)) (h2 : l ≠ [])
    (t : ℤ) (n : ℕ) :
    nearest_workday l t ∈ l
    ∧ (∀ w ∈ l, |t - nearest_workday l t| ≤ |t - w|)
    ∧ (∀ w ∈ l, |t - w| = |t - nearest_workday l t| → nearest_workday l t ≤ w)
    ∧ (t ≤ l.head h2 → nearest_workday l t = l.head h2)
    ∧ (l.getLast h2 ≤ t → nearest_workday l t = l.getLast h2)
    ∧ delivery_date_from_shortage l t n
        = some (l.getD (l.indexOf (nearest_workday l t) - n) 0) := by
  obtain ⟨w0, rest, rfl⟩ := List.exists_cons_of_ne_nil h2
  have hmin : ∀ w ∈ w0 :: rest, w0 ≤ w := by
    intro w hw
    rcases List.mem_cons.mp hw with rfl | hw2
    · exact le_refl w
    · exact le_of_lt ((List.sorted_cons.mp h1).1 w hw2)
  have hmax : ∀ w ∈ w0 :: rest, w ≤ (w0 :: rest).getLast h2 := fun w hw =>
    sorted_le_getLast (w0 :: rest) h1 h2 w hw
  have hsnap := nearest_workday_cons w0 rest t
  by_cases hfst : t ≤ w0
  · -- target at or before the first workday
    rw [if_pos hfst] at hsnap
    have hmem : nearest_workday (w0 :: rest) t ∈ w0 :: rest := by
      rw [hsnap]; exact List.mem_cons_self w0 rest
    refine ⟨hmem, ?_, ?_, ?_, ?_, delivery_eq_of_mem _ h1 _ _ hmem⟩
    · intro w hw
      rw [hsnap, abs_sub_of_le_right t w0 hfst,
        abs_sub_of_le_right t w (le_trans hfst (hmin w hw))]
      have := hmin w hw
      omega
    · intro w hw _
      rw [hsnap]
      exact hmin w hw
    · intro _
      rw [hsnap, List.head_cons]
    · intro hlast
      rw [hsnap]
      have h01 : w0 ≤ (w0 :: rest).getLast h2 :=
        hmax w0 (List.mem_cons_self w0 rest)
      omega
  · have hw0t : w0 < t := not_le.mp hfst
    rw [if_neg hfst] at hsnap
    by_cases hlst : (w0 :: rest).getLast h2 ≤ t
    · -- target at or after the last workday
      rw [if_pos hlst] at hsnap
      have hmem : nearest_workday (w0 :: rest) t ∈ w0 :: rest := by
        rw [hsnap]; exact List.getLast_mem h2
      refine ⟨hmem, ?_, ?_, ?_, ?_, delivery_eq_of_mem _ h1 _ _ hmem⟩
      · intro w hw
        rw [hsnap, abs_sub_of_le_left t _ hlst,
          abs_sub_of_le_left t w (le_trans (hmax w hw) hlst)]
        have := hmax w hw
        omega
      · intro w hw habs
        rw [hsnap] at habs ⊢
        rw [abs_sub_of_le_left t _ hlst,
          abs_sub_of_le_left t w (le_trans (hmax w hw) hlst)] at habs
        omega
      · intro hh
        exact absurd hh hfst
      · intro _
        rw [hsnap]
    · -- strictly inside the calendar: compare the two adjacent workdays
      have htl : t < (w0 :: rest).getLast h2 := not_le.mp hlst
      rw [if_neg hlst] at hsnap
      have hlen : 0 < (w0 :: rest).length := by simp
      have hgl : (w0 :: rest).getD ((w0 :: rest).length - 1) 0
          = (w0 :: rest).getLast h2 := by
        rw [List.getD_eq_getElem _ 0 (show (w0 :: rest).length - 1
          < (w0 :: rest).length by omega), List.getLast_eq_getElem]
      have hi1 : 1 ≤ bisect_left (w0 :: rest) t := by
        rw [bisect_left_cons_pos w0 rest t hw0t]
        omega
      have hi2 : bisect_left (w0 :: rest) t ≤ (w0 :: rest).length - 1 := by
        apply bisect_le_of_not_lt
        rw [hgl]
        omega
      have hilen : bisect_left (w0 :: rest) t < (w0 :: rest).length := by
        omega
      have hbt : (w0 :: rest).getD (bisect_left (w0 :: rest) t - 1) 0 < t :=
        getD_lt_of_lt_bisect _ t _ (by omega)
      have hta : t ≤ (w0 :: rest).getD (bisect_left (w0 :: rest) t) 0 :=
        not_lt.mp (not_getD_bisect_lt _ t hilen)
      have hbound : ∀ w ∈ w0 :: rest, ∃ k : ℕ, k < (w0 :: rest).length ∧
          w = (w0 :: rest).getD k 0 := by
        intro w hw
        obtain ⟨k, hk, rfl⟩ := List.getElem_of_mem hw
        exact ⟨k, hk, (List.getD_eq_getElem _ 0 hk).symm⟩
      by_cases hcond : t - (w0 :: rest).getD (bisect_left (w0 :: rest) t - 1) 0
          ≤ (w0 :: rest).getD (bisect_left (w0 :: rest) t) 0 - t
      · -- the earlier neighbour wins (including ties)
        rw [if_pos hcond] at hsnap
        have hmem : nearest_workday (w0 :: rest) t ∈ w0 :: rest := by
          rw [hsnap]; exact getD_mem _ _ (by omega)
        refine ⟨hmem, ?_, ?_, ?_, ?_, delivery_eq_of_mem _ h1 _ _ hmem⟩
        · intro w hw
          obtain ⟨k, hk, rfl⟩ := hbound w hw
          rw [hsnap, abs_sub_of_le_left t _ (le_of_lt hbt)]
          by_cases hki : k < bisect_left (w0 :: rest) t
          · have hwb : (w0 :: rest).getD k 0
                ≤ (w0 :: rest).getD (bisect_left (w0 :: rest) t - 1) 0 :=
              sorted_getD_le _ h1 k _ (by omega) (by omega)
            rw [abs_sub_of_le_left t _
              (le_of_lt (getD_lt_of_lt_bisect _ t k hki))]
            omega
          · have hwa : (w0 :: rest).getD (bisect_left (w0 :: rest) t) 0
                ≤ (w0 :: rest).getD k 0 :=
              sorted_getD_le _ h1 _ k (by omega) hk
            rw [abs_sub_of_le_right t _ (le_trans hta hwa)]
            omega
        · intro w hw habs
          obtain ⟨k, hk, rfl⟩ := hbound w hw
          rw [hsnap] at habs ⊢
          rw [abs_sub_of_le_left t _ (le_of_lt hbt)] at habs
          by_cases hki : k < bisect_left (w0 :: rest) t
          · have hwb : (w0 :: rest).getD k 0
                ≤ (w0 :: rest).getD (bisect_left (w0 :: rest) t - 1) 0 :=
              sorted_getD_le _ h1 k _ (by omega) (by omega)
            rw [abs_sub_of_le_left t _
              (le_of_lt (getD_lt_of_lt_bisect _ t k hki))] at habs
            omega
          · have hwa : (w0 :: rest).getD (bisect_left (w0 :: rest) t) 0
                ≤ (w0 :: rest).getD k 0 :=
              sorted_getD_le _ h1 _ k (by omega) hk
            omega
        · intro hh
          exact absurd hh hfst
        · intro hh
          exact absurd hh hlst
      · -- the later neighbour is strictly closer
        rw [if_neg hcond] at hsnap
        have hcond2 : (w0 :: rest).getD (bisect_left (w0 :: rest) t) 0 - t
            < t - (w0 :: rest).getD (bisect_left (w0 :: rest) t - 1) 0 := by
          omega
        have hmem : nearest_workday (w0 :: rest) t ∈ w0 :: rest := by
          rw [hsnap]; exact getD_mem _ _ hilen
        refine ⟨hmem, ?_, ?_, ?_, ?_, delivery_eq_of_mem _ h1 _ _ hmem⟩
        · intro w hw
          obtain ⟨k, hk, rfl⟩ := hbound w hw
          rw [hsnap, abs_sub_of_le_right t _ hta]
          by_cases hki : k < bisect_left (w0 :: rest) t
          · have hwb : (w0 :: rest).getD k 0
                ≤ (w0 :: rest).getD (bisect_left (w0 :: rest) t - 1) 0 :=
              sorted_getD_le _ h1 k _ (by omega) (by omega)
            rw [abs_sub_of_le_left t _
              (le_of_lt (getD_lt_of_lt_bisect _ t k hki))]
            omega
          · have hwa : (w0 :: rest).getD (bisect_left (w0 :: rest) t) 0
                ≤ (w0 :: rest).getD k 0 :=
              sorted_getD_le _ h1 _ k (by omega) hk
            rw [abs_sub_of_le_right t _ (le_trans hta hwa)]
            omega
        · intro w hw habs
          obtain ⟨k, hk, rfl⟩ := hbound w hw
          rw [hsnap] at habs ⊢
          rw [abs_sub_of_le_right t _ hta] at habs
          by_cases hki : k < bisect_left (w0 :: rest) t
          · have hwb : (w0 :: rest).getD k 0
                ≤ (w0 :: rest).getD (bisect_left (w0 :: rest) t - 1) 0 :=
              sorted_getD_le _ h1 k _ (by omega) (by omega)
            rw [abs_sub_of_le_left t _
              (le_of_lt (getD_lt_of_lt_bisect _ t k hki))] at habs
            omega
          · have hwa : (w0 :: rest).getD (bisect_left (w0 :: rest) t) 0
                ≤ (w0 :: rest).getD k 0 :=
              sorted_getD_le _ h1 _ k (by omega) hk
            omega
        · intro hh
          exact absurd hh hfst
        · intro hh
          exact absurd hh hlst

/-- Witness for C9: workdays `[0, 2, 5]`, target 3, one back-offset
workday: the nearest workday is 2 (tie-free), its index is 1, and the
delivery date is the workday at index 0. -/
theorem backoffset_spec_witness :
    delivery_date_from_shortage [0, 2, 5] 3 1 = some 0 := by
  have h := backoffset_spec [0, 2, 5] (by decide) (by decide) 3 1
  refine h.2.2.2.2.2.trans ?_
  decide

end Kikaika
